import Mathlib

/-!
Verification development for the document segmentation and embedding
pipeline of `src/lib/generate-embeddings.ts`.

Modelling conventions (shallow embedding):
* JavaScript strings are modelled as `List Char` (`JSString`); `s.length`
  is `List.length`, `s.split('\n')` is `splitLines`, string concatenation
  is list append.
* JavaScript numbers are modelled as `ℚ` where fractional arithmetic
  occurs (`length / 4`, `CONTEXT_TOKENS_CUTOFF * 0.8`); all quantities
  involved are small multiples of `1/4`, on which IEEE doubles are exact.
* External collaborators (markdown/markdoc/turndown parsers, the OpenAI
  embedding endpoint, the supabase relational store, the redis counter)
  are modelled as oracle functions packaged in `ParserEnv` and `Stores`;
  the I/O calls the pipeline makes are recorded in order in a trace of
  `Event`s.
-/

/-- A JavaScript string, modelled as its list of characters. -/
abbrev JSString := List Char

/-- Convert a Lean string literal to a `JSString`. -/
def jstr (s : String) : JSString := s.toList

/-- `s.split('\n')`: split a string at every newline character.  Like the
JavaScript method, it returns one (possibly empty) piece per gap, and
`splitLines [] = [[]]`. -/
def splitLines : JSString → List JSString
  | [] => [[]]
  | c :: rest =>
    if c = '\n' then [] :: splitLines rest
    else
      match splitLines rest with
      | [] => [[c]]
      | l :: ls => (c :: l) :: ls

/-- The lines across a list of pieces: each piece is split at its
newlines and the resulting line lists are concatenated in order. -/
def piecesLines : List JSString → List JSString
  | [] => []
  | p :: ps => splitLines p ++ piecesLines ps

/-- The estimated token count of a list of lines: the sum over the lines
of `length / 4` (the 1 token ~= 4 characters heuristic of the source). -/
def linesTokens (ls : List JSString) : ℚ :=
  (ls.map (fun l => ((l.length : ℚ) / 4))).sum

/-- Modelled from the spec: `CONTEXT_TOKENS_CUTOFF` lives in
`src/lib/constants.ts`, which is not part of the provided sources.  §4.3
sets the budget to `CONTEXT_TOKENS_CUTOFF * 0.8` and §8 scenario 2 places
the character threshold at roughly 16,000 characters, i.e. a budget of
4,000 estimated tokens, giving `CONTEXT_TOKENS_CUTOFF = 5000`. -/
def CONTEXT_TOKENS_CUTOFF : ℚ := 5000

/-- `const TOKEN_CUTOFF_ADJUSTED = CONTEXT_TOKENS_CUTOFF * 0.8`. -/
def TOKEN_CUTOFF_ADJUSTED : ℚ := CONTEXT_TOKENS_CUTOFF * 0.8

/-- Modelled from the spec: `MIN_CONTENT_LENGTH` lives in
`src/lib/constants.ts`, which is not part of the provided sources.  §4.4
only requires a minimum content length threshold below which chunks are
silently skipped; the value is chosen consistent with §8 scenario 1
(50-character paragraphs must qualify). -/
def MIN_CONTENT_LENGTH : Nat := 30

/-- The accumulation loop of `splitWithinTokenCutoff` (the
`for (const line of lines)` loop plus the trailing
`if (!!accLines) subSections.push(accLines)` flush), with the budget `B`
abstracted.  State: remaining lines, `accTokenCounter`, `accLines`,
`subSections`. -/
def swtcLoop (B : ℚ) : List JSString → ℚ → JSString → List JSString → List JSString
  | [], _, accLines, subSections =>
    if accLines = [] then subSections else subSections ++ [accLines]
  | line :: rest, accTokenCounter, accLines, subSections =>
    if accTokenCounter + (line.length : ℚ) / 4 < B then
      swtcLoop B rest (accTokenCounter + (line.length : ℚ) / 4)
        (accLines ++ '\n' :: line) subSections
    else
      swtcLoop B rest 0 line (subSections ++ [accLines])

/-- `splitWithinTokenCutoff` from `src/lib/generate-embeddings.ts` (the
Budget Sub-splitter, `bound` in the spec).  The argument is called `s`
because `section` is a Lean keyword. -/
def splitWithinTokenCutoff (s : JSString) : List JSString :=
  if (s.length : ℚ) / 4 < TOKEN_CUTOFF_ADJUSTED then [s]
  else swtcLoop TOKEN_CUTOFF_ADJUSTED (splitLines s) 0 [] []

/-- A top-level node of an mdast tree, reduced to the data the pipeline
inspects: its `type` tag (string-tag dispatch in the source) and a
`value` payload standing for the rest of the node. -/
structure Content where
  type : String
  value : String
deriving DecidableEq

/-- An mdast `Root`: an ordered list of top-level nodes. -/
structure Root where
  children : List Content
deriving DecidableEq

/-- The predicate `(node) => node.type === 'heading'` that
`splitMarkdownIntoSections` passes to `splitTreeBy`. -/
def isHeading (node : Content) : Bool := node.type == r"heading"

/-- One step of the `tree.children.reduce` in `splitTreeBy`:
`const [lastTree] = trees.slice(-1); if (!lastTree || predicate(node))`
start a new one-node tree, else push the node onto the last tree. -/
def splitStep (predicate : Content → Bool) (trees : List Root) (node : Content) : List Root :=
  match trees.getLast? with
  | none => trees ++ [⟨[node]⟩]
  | some lastTree =>
    if predicate node then trees ++ [⟨[node]⟩]
    else trees.dropLast ++ [⟨lastTree.children ++ [node]⟩]

/-- `splitTreeBy` from `src/lib/generate-embeddings.ts` (the Section
Splitter). -/
def splitTreeBy (tree : Root) (predicate : Content → Bool) : List Root :=
  tree.children.foldl (splitStep predicate) []

/-- Concatenation of the node sequences of a list of section trees. -/
def concatChildren : List Root → List Content
  | [] => []
  | t :: ts => t.children ++ concatChildren ts

/-- The node types removed from an MDX tree before sectioning
(`mdxjsEsm`, JSX elements and expressions). -/
def mdxNodeTypes : List String :=
  [r"mdxjsEsm", r"mdxJsxFlowElement", r"mdxJsxTextElement",
   r"mdxFlowExpression", r"mdxTextExpression"]

/-- The `filter(mdxTree, ...)` call of the source (unist-util-filter).
The filter recurses over the tree and returns `null` when nothing
survives; in this flat top-level model the root node itself (type
`root`) never matches the banned list, so the result keeps the root and
filters its children. -/
def filterTree (tree : Root) : Option Root :=
  some ⟨tree.children.filter (fun node => !(mdxNodeTypes.contains node.type))⟩

/-- A thrown parse error (the `catch (e)` value). -/
abbrev ParseErr := JSString

/-- Metadata extracted from frontmatter, abstract key/value pairs. -/
abbrev FileMeta := List (JSString × JSString)

/-- The external parsing/conversion collaborators used by the Format
Normalizer, as oracle functions: `fromMarkdown` (with or without the
MDX extensions; may throw), `toMarkdown`, the composite
`Markdoc.parse`/`transform`/`renderers.html`/turndown chain
(`markdocToMarkdown`), turndown on raw HTML, `getFileType` and
`extractFrontmatter` from the utils modules. -/
structure ParserEnv where
  fromMarkdown : JSString → Bool → Except ParseErr Root
  toMarkdown : Root → JSString
  markdocToMarkdown : JSString → JSString
  turndown : JSString → JSString
  getFileType : JSString → String
  extractFrontmatter : JSString → FileMeta

/-- `splitMarkdownIntoSections` from the source: parse (as MDX when
`asMDX`), strip MDX node kinds, split at headings, serialize each
section tree. -/
def splitMarkdownIntoSections (env : ParserEnv) (content : JSString)
    (asMDX : Bool) : Except ParseErr (List JSString) :=
  match env.fromMarkdown content asMDX with
  | .error e => .error e
  | .ok mdxTree =>
    match filterTree mdxTree with
    | none => .ok []
    | some mdTree => .ok ((splitTreeBy mdTree isHeading).map env.toMarkdown)

/-- `splitMarkdocIntoSections` from the source: render Markdoc to
markdown text (via html and turndown), then section it as plain
markdown. -/
def splitMarkdocIntoSections (env : ParserEnv) (content : JSString) :
    Except ParseErr (List JSString) :=
  splitMarkdownIntoSections env (env.markdocToMarkdown content) false

/-- `splitHtmlIntoSections` from the source. -/
def splitHtmlIntoSections (env : ParserEnv) (content : JSString) :
    Except ParseErr (List JSString) :=
  splitMarkdownIntoSections env (env.turndown content) false

/-- The `file` argument of `processFile`. -/
structure FileData where
  name : JSString
  path : JSString
  content : JSString
deriving DecidableEq

/-- `FileSectionData` from the source. -/
structure FileSectionData where
  sections : List JSString
  meta : FileMeta
deriving DecidableEq

/-- The format dispatch plus MDX-to-Markdoc fallback of `processFile`
(the `if/else if/else` with its `try/catch`), producing the sections
before the token-budget trimming. -/
def selectSections (env : ParserEnv) (file : FileData) :
    Except ParseErr (List JSString) :=
  if env.getFileType file.name = r"mdoc" then
    splitMarkdocIntoSections env file.content
  else if env.getFileType file.name = r"html" then
    splitHtmlIntoSections env file.content
  else
    match splitMarkdownIntoSections env file.content true with
    | .ok sections => .ok sections
    | .error _ => splitMarkdocIntoSections env file.content

/-- `processFile` from the source: select sections by file type (with
the MDX fallback), then trim every section through
`splitWithinTokenCutoff` (the `sections.reduce` spread). -/
def processFile (env : ParserEnv) (file : FileData) :
    Except ParseErr FileSectionData :=
  match selectSections env file with
  | .error e => .error e
  | .ok sections =>
    .ok ⟨sections.foldl (fun acc value => acc ++ splitWithinTokenCutoff value) [],
         env.extractFrontmatter file.content⟩

/-- The `usage` object of an embedding provider response.  The source
reads `usage?.total_tokens ?? 0` / `usage.total_tokens ?? 0`; in this
model a successful response always carries a `usage` object whose
`total_tokens` may be absent, so both reads agree. -/
structure EmbedUsage where
  total_tokens : Option Nat
deriving DecidableEq

/-- A successful embedding provider response: `data[0].embedding` and
`usage`. -/
structure EmbedResult where
  usage : EmbedUsage
  embedding : List ℚ
deriving DecidableEq

/-- One element of `embeddingsData` (a `file_sections` row). -/
structure EmbeddingRecord where
  file_id : Nat
  content : JSString
  embedding : List ℚ
  token_count : Nat
deriving DecidableEq

/-- One entry of the returned `errors` list. -/
structure ErrEntry where
  path : JSString
  message : JSString
deriving DecidableEq

/-- One external I/O call made by `generateFileEmbeddings`, recorded in
order.  `embed` stands for one (backoff-wrapped) `createEmbedding`
invocation; the others are the supabase/redis calls.  The redis key is
derived from the project id and the current month; the month component
is not modelled. -/
inductive Event where
  | getFileAtPath (projectId : Nat) (path : JSString)
  | deleteFileSections (fileId : Nat)
  | updateFileMeta (fileId : Nat) (meta : FileMeta)
  | createFile (projectId : Nat) (path : JSString) (meta : FileMeta)
  | embed (input : JSString)
  | insertMany (records : List EmbeddingRecord)
  | insertOne (record : EmbeddingRecord)
  | incrby (projectId : Nat) (amount : Nat)
deriving DecidableEq

/-- The external stores and the embedding provider, as oracles.
`getFileAtPath`/`createFile` resolve to a file id or fail (`none`);
`insertFileSections` is the bulk insert, returning `some` error message
on failure; `createEmbedding` is the provider call, indexed by the
attempt number so that transient failures are expressible.  The results
of the per-row fallback inserts, of the deletion and of the metadata
update are ignored by the source, so they need no oracle. -/
structure Stores where
  getFileAtPath : Nat → JSString → Option Nat
  createFile : Nat → JSString → FileMeta → Option Nat
  insertFileSections : List EmbeddingRecord → Option JSString
  createEmbedding : JSString → Option JSString → Nat → Except JSString EmbedResult

/-- The options object passed to `backOff` in the source
(`{ startingDelay: 10000, numOfAttempts: 10 }`).  The delay shapes
timing only and does not affect results. -/
structure BackOffOptions where
  startingDelay : Nat
  numOfAttempts : Nat

/-- Retry engine of the `exponential-backoff` package: try attempts
`i, i+1, ...` while `fuel` remains, returning the first success or the
last failure. -/
def backOffRun {ε α : Type} (op : Nat → Except ε α) : Nat → Nat → Except ε α
  | i, 0 => op i
  | i, n + 1 =>
    match op i with
    | .ok a => .ok a
    | .error _ => backOffRun op (i + 1) n

/-- `backOff(op, options)`: up to `numOfAttempts` attempts. -/
def backOff {ε α : Type} (op : Nat → Except ε α) (options : BackOffOptions) :
    Except ε α :=
  backOffRun op 0 (options.numOfAttempts - 1)

/-- `section.replace(/\n/g, ' ')`. -/
def toInput (s : JSString) : JSString :=
  s.map (fun c => if c = '\n' then ' ' else c)

/-- The message `Unable to generate embeddings for section starting
with '<snippet>...': <error>`, where the snippet is
`input.slice(0, 20)`. -/
def failMsg (input : JSString) (error : JSString) : JSString :=
  jstr (r"Unable to generate embeddings for section starting with '")
    ++ List.take 20 input ++ jstr (r"...': ") ++ error

/-- The message `Error storing embeddings: <error.message>`. -/
def storeMsg (message : JSString) : JSString :=
  jstr (r"Error storing embeddings: ") ++ message

/-- The message `Unable to create file <path>.`. -/
def unableCreateMsg (path : JSString) : JSString :=
  jstr (r"Unable to create file ") ++ path ++ jstr (r".")

/-- The mutable state of the `for (const section of sections)` loop:
`embeddingsTokenCount`, `embeddingsData`, `errors`, plus the I/O trace
so far. -/
structure LoopState where
  embeddingsTokenCount : Nat
  embeddingsData : List EmbeddingRecord
  errors : List ErrEntry
  trace : List Event
deriving DecidableEq

/-- One iteration of the embedding loop: collapse newlines, skip short
content, call the provider under `backOff` (10 attempts, 10s starting
delay), then either accumulate tokens and push a record, or push one
error entry carrying a 20-character snippet. -/
def embedStep (stores : Stores) (byoOpenAIKey : Option JSString)
    (path : JSString) (fileId : Nat) (st : LoopState) (s : JSString) : LoopState :=
  let input := toInput s
  if input.length < MIN_CONTENT_LENGTH then st
  else
    match backOff (fun attempt => stores.createEmbedding input byoOpenAIKey attempt)
        ⟨10000, 10⟩ with
    | .ok r =>
      { st with
        embeddingsTokenCount := st.embeddingsTokenCount + r.usage.total_tokens.getD 0,
        embeddingsData := st.embeddingsData
          ++ [⟨fileId, input, r.embedding, r.usage.total_tokens.getD 0⟩],
        trace := st.trace ++ [Event.embed input] }
    | .error e =>
      { st with
        errors := st.errors ++ [⟨path, failMsg input e⟩],
        trace := st.trace ++ [Event.embed input] }

/-- The error entry (if any) the loop appends for one section. -/
def chunkError (stores : Stores) (byoOpenAIKey : Option JSString)
    (path : JSString) (s : JSString) : Option ErrEntry :=
  let input := toInput s
  if input.length < MIN_CONTENT_LENGTH then none
  else
    match backOff (fun attempt => stores.createEmbedding input byoOpenAIKey attempt)
        ⟨10000, 10⟩ with
    | .ok _ => none
    | .error e => some ⟨path, failMsg input e⟩

/-- The embedding record (if any) the loop appends for one section. -/
def chunkRecord (stores : Stores) (byoOpenAIKey : Option JSString)
    (fileId : Nat) (s : JSString) : Option EmbeddingRecord :=
  let input := toInput s
  if input.length < MIN_CONTENT_LENGTH then none
  else
    match backOff (fun attempt => stores.createEmbedding input byoOpenAIKey attempt)
        ⟨10000, 10⟩ with
    | .ok r => some ⟨fileId, input, r.embedding, r.usage.total_tokens.getD 0⟩
    | .error _ => none

/-- The tokens the loop adds to `embeddingsTokenCount` for one section. -/
def chunkTokens (stores : Stores) (byoOpenAIKey : Option JSString)
    (s : JSString) : Nat :=
  let input := toInput s
  if input.length < MIN_CONTENT_LENGTH then 0
  else
    match backOff (fun attempt => stores.createEmbedding input byoOpenAIKey attempt)
        ⟨10000, 10⟩ with
    | .ok r => r.usage.total_tokens.getD 0
    | .error _ => 0

/-- The provider-call event (if any) the loop emits for one section. -/
def chunkEmbedEvent (s : JSString) : Option Event :=
  let input := toInput s
  if input.length < MIN_CONTENT_LENGTH then none else some (Event.embed input)

/-- The part of `generateFileEmbeddings` after a file id has been
obtained (`tracePrefix` records the resolution calls already made): the
embedding loop, the bulk insert with its one-row best-effort fallback,
and the monthly usage counter increment. -/
def generateFileEmbeddingsCore (stores : Stores) (projectId : Nat)
    (file : FileData) (byoOpenAIKey : Option JSString) (fsd : FileSectionData)
    (fileId : Nat) (tracePrefix : List Event) : List ErrEntry × List Event :=
  let st := fsd.sections.foldl (embedStep stores byoOpenAIKey file.path fileId)
    ⟨0, [], [], []⟩
  match stores.insertFileSections st.embeddingsData with
  | some err =>
    (st.errors ++ [⟨file.path, storeMsg err⟩],
     tracePrefix ++ st.trace
       ++ [Event.insertMany st.embeddingsData]
       ++ st.embeddingsData.map Event.insertOne
       ++ [Event.incrby projectId st.embeddingsTokenCount])
  | none =>
    (st.errors,
     tracePrefix ++ st.trace
       ++ [Event.insertMany st.embeddingsData]
       ++ [Event.incrby projectId st.embeddingsTokenCount])

/-- `generateFileEmbeddings` from the source.  Returns the `errors`
list together with the ordered trace of external calls; a parse failure
of both normalization paths propagates as `.error` (the function
throws).  When the file is found, prior section rows are deleted and
the metadata updated before the loop; otherwise a file record is
created; if no file id results, the single fatal error is returned. -/
def generateFileEmbeddings (stores : Stores) (env : ParserEnv)
    (projectId : Nat) (file : FileData) (byoOpenAIKey : Option JSString) :
    Except ParseErr (List ErrEntry × List Event) :=
  match processFile env file with
  | .error e => .error e
  | .ok fsd =>
    match stores.getFileAtPath projectId file.path with
    | some fileId =>
      .ok (generateFileEmbeddingsCore stores projectId file byoOpenAIKey fsd fileId
        [Event.getFileAtPath projectId file.path,
         Event.deleteFileSections fileId,
         Event.updateFileMeta fileId fsd.meta])
    | none =>
      match stores.createFile projectId file.path fsd.meta with
      | some fileId =>
        .ok (generateFileEmbeddingsCore stores projectId file byoOpenAIKey fsd fileId
          [Event.getFileAtPath projectId file.path,
           Event.createFile projectId file.path fsd.meta])
      | none =>
        .ok ([⟨file.path, unableCreateMsg file.path⟩],
          [Event.getFileAtPath projectId file.path,
           Event.createFile projectId file.path fsd.meta])

/-- Is this event a provider embedding call? -/
def isEmbedCall : Event → Bool
  | .embed _ => true
  | _ => false

/-- Is this event a mutation of persisted state, in the sense
enumerated by the spec: deleting prior section rows, updating file
metadata, inserting records (bulk or single), or incrementing the usage
counter? -/
def isStoreMutation : Event → Bool
  | .deleteFileSections _ => true
  | .updateFileMeta _ _ => true
  | .insertMany _ => true
  | .insertOne _ => true
  | .incrby _ _ => true
  | _ => false

/-- Is this event a record insertion (bulk or single)? -/
def isRecordInsert : Event → Bool
  | .insertMany _ => true
  | .insertOne _ => true
  | _ => false

/-- Is this event the usage counter increment? -/
def isIncrby : Event → Bool
  | .incrby _ _ => true
  | _ => false

/-- The ordering property asserted by the spec for one run's trace:
every persistence mutation comes after every embedding call. -/
def mutationsOnlyAfterEmbeds (tr : List Event) : Prop :=
  ∀ i j : Fin tr.length,
    isStoreMutation (tr.get i) = true → isEmbedCall (tr.get j) = true →
      (j : Nat) < (i : Nat)

/-- A 16,004-character single-line section: its estimated token count
4001 is over the 4000-token budget, and so is its first (only) line. -/
def s0 : JSString := List.replicate 16004 'a'

/-- A two-character section, well under the budget. -/
def sAB : JSString := ['a', 'b']

/-- A heading-free two-node tree, for the Section Splitter witness. -/
def t0 : Root := ⟨[⟨r"paragraph", r"intro"⟩, ⟨r"paragraph", r"more"⟩]⟩

/-- The empty tree (an empty document's mdast root). -/
def emptyTree : Root := ⟨[]⟩

/-- Concrete document used by the driver scenarios. -/
def cPath : JSString := jstr (r"docs/guide.md")

/-- Concrete document used by the driver scenarios. -/
def cFile : FileData := ⟨jstr (r"guide.md"), cPath, jstr (r"hello world")⟩

/-- A 40-character paragraph payload. -/
def paraVal : String := String.mk (List.replicate 40 'p')

/-- A 40-character heading payload (first section of the two-section
scenario). -/
def aVal : String := String.mk (List.replicate 40 'a')

/-- A 40-character heading payload (second section of the two-section
scenario). -/
def bVal : String := String.mk (List.replicate 40 'b')

/-- A one-paragraph tree, yielding a single 40-character section. -/
def cTreeA : Root := ⟨[⟨r"paragraph", paraVal⟩]⟩

/-- A two-heading tree, yielding two 40-character sections. -/
def cTreeB : Root := ⟨[⟨r"heading", aVal⟩, ⟨r"heading", bVal⟩]⟩

/-- Serialization oracle: a section tree prints as the concatenation of
its nodes' payloads. -/
def cToMarkdown (t : Root) : JSString :=
  (t.children.map (fun n => n.value.toList)).flatten

/-- Parser oracles for the one-paragraph document: every parse succeeds
with `cTreeA`. -/
def envA : ParserEnv :=
  ⟨fun _ _ => .ok cTreeA, cToMarkdown, fun s => s, fun s => s,
   fun _ => r"md", fun _ => []⟩

/-- Parser oracles for the two-heading document: every parse succeeds
with `cTreeB`. -/
def envB : ParserEnv :=
  ⟨fun _ _ => .ok cTreeB, cToMarkdown, fun s => s, fun s => s,
   fun _ => r"md", fun _ => []⟩

/-- Parser oracles where the MDX parse throws and the plain parse
succeeds with `cTreeA` (an `.md` file that is really Markdoc). -/
def envD : ParserEnv :=
  ⟨fun _ asMDX =>
     if asMDX then .error (jstr (r"Could not parse import/exports with acorn"))
     else .ok cTreeA,
   cToMarkdown, fun s => s, fun s => s, fun _ => r"md", fun _ => []⟩

/-- Stores for the happy path: the file exists (id 7), every provider
call succeeds with 5 tokens, the bulk insert succeeds. -/
def storesA : Stores :=
  ⟨fun _ _ => some 7, fun _ _ _ => none, fun _ => none,
   fun _ _ _ => .ok ⟨⟨some 5⟩, [1]⟩⟩

/-- Stores where the bulk insert fails with `payload too large` but
everything else behaves as in `storesA`. -/
def storesBulkFail : Stores :=
  ⟨fun _ _ => some 7, fun _ _ _ => none, fun _ => some (jstr (r"payload too large")),
   fun _ _ _ => .ok ⟨⟨some 5⟩, [1]⟩⟩

/-- Stores where the provider permanently rejects inputs starting with
`a` (every attempt fails) and accepts everything else. -/
def storesEmbedFail : Stores :=
  ⟨fun _ _ => some 7, fun _ _ _ => none, fun _ => none,
   fun input _ _ =>
     if input.headD ' ' = 'a' then .error (jstr (r"too_many_requests"))
     else .ok ⟨⟨some 5⟩, [1]⟩⟩

/-- Stores where the file can neither be found nor created. -/
def storesNoFile : Stores :=
  ⟨fun _ _ => none, fun _ _ _ => none, fun _ => none,
   fun _ _ _ => .ok ⟨⟨some 5⟩, [1]⟩⟩

/-- The single 40-character section produced by the `envA` scenario. -/
def cSec : JSString := paraVal.toList

/-- The first 40-character section of the `envB` scenario (rejected by
`storesEmbedFail`). -/
def aSec : JSString := aVal.toList

/-- The second 40-character section of the `envB` scenario. -/
def bSec : JSString := bVal.toList

/-- The record the happy-path scenarios produce for `cSec`. -/
def cRec : EmbeddingRecord := ⟨7, cSec, [1], 5⟩

/-- The record the `envB` scenarios produce for `bSec`. -/
def bRec : EmbeddingRecord := ⟨7, bSec, [1], 5⟩

theorem splitLines_ne_nil (s : JSString) : splitLines s ≠ [] := by
  induction s with
  | nil => simp [splitLines]
  | cons c rest ih =>
    simp only [splitLines]
    by_cases hc : c = '\n'
    · simp [hc]
    · rw [if_neg hc]
      cases h : splitLines rest
      all_goals simp

theorem splitLines_append_newline (x y : JSString) :
    splitLines (x ++ '\n' :: y) = splitLines x ++ splitLines y := by
  induction x with
  | nil => simp [splitLines]
  | cons c rest ih =>
    by_cases hc : c = '\n'
    · subst hc
      have e1 : ∀ z : JSString, splitLines ('\n' :: z) = [] :: splitLines z := by
        intro z; simp [splitLines]
      rw [List.cons_append, e1, e1, ih, List.cons_append]
    · cases h : splitLines rest with
      | nil => exact absurd h (splitLines_ne_nil rest)
      | cons l ls => simp [splitLines, hc, ih, h]

theorem splitLines_no_newline {s : JSString} (h : '\n' ∉ s) : splitLines s = [s] := by
  induction s with
  | nil => simp [splitLines]
  | cons c rest ih =>
    have hc : ¬c = '\n' := fun e => h (e ▸ List.mem_cons_self c rest)
    have hr : '\n' ∉ rest := fun m => h (List.mem_cons_of_mem _ m)
    simp [splitLines, if_neg hc, ih hr]

theorem no_newline_of_mem_splitLines :
    ∀ {s l : JSString}, l ∈ splitLines s → '\n' ∉ l := by
  intro s
  induction s with
  | nil =>
    intro l hl
    simp [splitLines] at hl
    subst hl
    simp
  | cons c rest ih =>
    intro l hl
    by_cases hc : c = '\n'
    · subst hc
      simp only [splitLines, if_pos rfl] at hl
      rcases List.mem_cons.mp hl with h | h
      · subst h; simp
      · exact ih h
    · simp only [splitLines, if_neg hc] at hl
      cases h : splitLines rest with
      | nil => exact absurd h (splitLines_ne_nil rest)
      | cons m ms =>
        rw [h] at hl
        rcases List.mem_cons.mp hl with h1 | h1
        · subst h1
          intro hmem
          rcases List.mem_cons.mp hmem with he | hm
          · exact hc he.symm
          · exact ih (h ▸ List.mem_cons_self m ms) hm
        · exact ih (h ▸ List.mem_cons_of_mem _ h1)

theorem linesTokens_nil : linesTokens [] = 0 := rfl

theorem linesTokens_cons (l : JSString) (ls : List JSString) :
    linesTokens (l :: ls) = (l.length : ℚ) / 4 + linesTokens ls := by
  simp [linesTokens]

theorem linesTokens_append (a b : List JSString) :
    linesTokens (a ++ b) = linesTokens a + linesTokens b := by
  simp [linesTokens]

theorem linesTokens_nonneg (ls : List JSString) : 0 ≤ linesTokens ls := by
  induction ls with
  | nil => simp [linesTokens]
  | cons l ls ih =>
    rw [linesTokens_cons]
    have : (0 : ℚ) ≤ (l.length : ℚ) / 4 := by positivity
    linarith

theorem linesTokens_tail_le (ls : List JSString) :
    linesTokens ls.tail ≤ linesTokens ls := by
  cases ls with
  | nil => simp
  | cons l ls =>
    rw [List.tail_cons, linesTokens_cons]
    have : (0 : ℚ) ≤ (l.length : ℚ) / 4 := by positivity
    linarith

theorem linesTokens_splitLines_le (s : JSString) :
    linesTokens (splitLines s) ≤ (s.length : ℚ) / 4 := by
  induction s with
  | nil => simp [splitLines, linesTokens]
  | cons c rest ih =>
    by_cases hc : c = '\n'
    · subst hc
      have e : splitLines ('\n' :: rest) = [] :: splitLines rest := by
        simp [splitLines]
      rw [e, linesTokens_cons, List.length_cons]
      have hl : ((List.nil : JSString).length : ℚ) / 4 = 0 := by simp
      rw [hl]
      push_cast
      linarith
    · cases h : splitLines rest with
      | nil => exact absurd h (splitLines_ne_nil rest)
      | cons m ms =>
        have e : splitLines (c :: rest) = (c :: m) :: ms := by
          simp [splitLines, hc, h]
        rw [h, linesTokens_cons] at ih
        rw [e, linesTokens_cons, List.length_cons, List.length_cons]
        push_cast
        linarith

theorem piecesLines_append (a b : List JSString) :
    piecesLines (a ++ b) = piecesLines a ++ piecesLines b := by
  induction a with
  | nil => simp [piecesLines]
  | cons p ps ih => simp [piecesLines, ih]

theorem swtcLoop_out_append (B : ℚ) :
    ∀ (lines : List JSString) (acc : ℚ) (accLines : JSString)
      (out : List JSString),
      swtcLoop B lines acc accLines out = out ++ swtcLoop B lines acc accLines [] := by
  intro lines
  induction lines with
  | nil =>
    intro acc accLines out
    by_cases h : accLines = [] <;> simp [swtcLoop, h]
  | cons line rest ih =>
    intro acc accLines out
    simp only [swtcLoop]
    by_cases h : acc + (line.length : ℚ) / 4 < B
    · rw [if_pos h, if_pos h, ih _ _ out]
    · rw [if_neg h, if_neg h, ih _ _ (out ++ [accLines]), ih _ _ ([] ++ [accLines])]
      simp

theorem swtcLoop_flat (B : ℚ) (hB : 0 < B) :
    ∀ (lines : List JSString) (acc : ℚ) (accLines : JSString)
      (out : List JSString),
      (∀ l ∈ lines, '\n' ∉ l) → acc < B → (accLines = [] → lines ≠ []) →
      piecesLines (swtcLoop B lines acc accLines out)
        = piecesLines out ++ splitLines accLines ++ lines := by
  intro lines
  induction lines with
  | nil =>
    intro acc accLines out _ _ hne
    have h : accLines ≠ [] := fun h => (hne h) rfl
    simp [swtcLoop, h, piecesLines_append, piecesLines]
  | cons line rest ih =>
    intro acc accLines out hnl hacc hne
    have hline : '\n' ∉ line := hnl line (List.mem_cons_self _ _)
    have hrest : ∀ l ∈ rest, '\n' ∉ l := fun l hl => hnl l (List.mem_cons_of_mem _ hl)
    simp only [swtcLoop]
    by_cases h : acc + (line.length : ℚ) / 4 < B
    · rw [if_pos h, ih _ _ _ hrest h (fun hE => absurd hE (by simp)),
        splitLines_append_newline, splitLines_no_newline hline]
      simp
    · have hlineNe : line ≠ [] := by
        intro e
        apply h
        subst e
        simpa using hacc
      rw [if_neg h, ih _ _ _ hrest hB (fun hE => absurd hE hlineNe),
        piecesLines_append, splitLines_no_newline hline]
      simp [piecesLines]

theorem swtcLoop_bounded (B : ℚ) (hB : 0 < B) :
    ∀ (lines : List JSString) (acc : ℚ) (accLines : JSString)
      (out : List JSString),
      (∀ l ∈ lines, '\n' ∉ l) → acc < B →
      linesTokens (splitLines accLines).tail ≤ acc →
      (∀ p ∈ out, linesTokens (splitLines p).tail < B) →
      ∀ p ∈ swtcLoop B lines acc accLines out,
        linesTokens (splitLines p).tail < B := by
  intro lines
  induction lines with
  | nil =>
    intro acc accLines out _ hacc hbuf hout p hp
    by_cases h : accLines = []
    · simp only [swtcLoop, if_pos h] at hp
      exact hout p hp
    · simp only [swtcLoop, if_neg h] at hp
      rcases List.mem_append.mp hp with hp | hp
      · exact hout p hp
      · have : p = accLines := by simpa using hp
        subst this
        exact lt_of_le_of_lt hbuf hacc
  | cons line rest ih =>
    intro acc accLines out hnl hacc hbuf hout p hp
    have hline : '\n' ∉ line := hnl line (List.mem_cons_self _ _)
    have hrest : ∀ l ∈ rest, '\n' ∉ l := fun l hl => hnl l (List.mem_cons_of_mem _ hl)
    simp only [swtcLoop] at hp
    by_cases h : acc + (line.length : ℚ) / 4 < B
    · rw [if_pos h] at hp
      refine ih _ _ _ hrest h ?_ hout p hp
      rw [splitLines_append_newline, splitLines_no_newline hline]
      have h1 : (splitLines accLines ++ [line]).tail
          = (splitLines accLines).tail ++ [line] := by
        cases hsa : splitLines accLines with
        | nil => exact absurd hsa (splitLines_ne_nil _)
        | cons m ms => simp
      rw [h1, linesTokens_append]
      have h2 : linesTokens [line] = (line.length : ℚ) / 4 := by
        simp [linesTokens]
      rw [h2]
      linarith
    · rw [if_neg h] at hp
      refine ih _ _ _ hrest hB ?_ ?_ p hp
      · rw [splitLines_no_newline hline]
        simp [linesTokens]
      · intro q hq
        rcases List.mem_append.mp hq with hq | hq
        · exact hout q hq
        · have : q = accLines := by simpa using hq
          subst this
          exact lt_of_le_of_lt hbuf hacc

theorem TOKEN_CUTOFF_ADJUSTED_eq : TOKEN_CUTOFF_ADJUSTED = 4000 := by
  norm_num [TOKEN_CUTOFF_ADJUSTED, CONTEXT_TOKENS_CUTOFF]

theorem TOKEN_CUTOFF_ADJUSTED_pos : (0 : ℚ) < TOKEN_CUTOFF_ADJUSTED := by
  rw [TOKEN_CUTOFF_ADJUSTED_eq]; norm_num

theorem swtc_of_short {s : JSString}
    (h : (s.length : ℚ) / 4 < TOKEN_CUTOFF_ADJUSTED) :
    splitWithinTokenCutoff s = [s] := by
  rw [splitWithinTokenCutoff, if_pos h]

theorem swtc_of_length_lt {s : JSString} (h : s.length < 16000) :
    splitWithinTokenCutoff s = [s] := by
  apply swtc_of_short
  rw [TOKEN_CUTOFF_ADJUSTED_eq, div_lt_iff₀ (by norm_num : (0:ℚ) < 4)]
  norm_num
  exact_mod_cast h

theorem swtc_of_not_short {s : JSString}
    (h : ¬ (s.length : ℚ) / 4 < TOKEN_CUTOFF_ADJUSTED) :
    splitWithinTokenCutoff s
      = swtcLoop TOKEN_CUTOFF_ADJUSTED (splitLines s) 0 [] [] := by
  rw [splitWithinTokenCutoff, if_neg h]

theorem s0_length : s0.length = 16004 := by
  show (List.replicate 16004 'a').length = 16004
  exact List.length_replicate 16004 'a'

theorem s0_ne_nil : s0 ≠ [] := by
  intro h
  have := congrArg List.length h
  rw [s0_length] at this
  simp at this

theorem s0_no_newline : '\n' ∉ s0 := by
  intro h
  have := List.eq_of_mem_replicate h
  exact absurd this (by decide)

theorem s0_not_short : ¬ (s0.length : ℚ) / 4 < TOKEN_CUTOFF_ADJUSTED := by
  rw [s0_length, TOKEN_CUTOFF_ADJUSTED_eq]
  norm_num

theorem swtc_s0 : splitWithinTokenCutoff s0 = [[], s0] := by
  rw [swtc_of_not_short s0_not_short, splitLines_no_newline s0_no_newline]
  have hcond : ¬ ((0 : ℚ) + (s0.length : ℚ) / 4 < TOKEN_CUTOFF_ADJUSTED) := by
    rw [s0_length, TOKEN_CUTOFF_ADJUSTED_eq]
    norm_num
  simp only [swtcLoop, if_neg hcond]
  simp [s0_ne_nil]

/-- Claim C4: a section whose estimated token count `length / 4` is
strictly below `TOKEN_CUTOFF_ADJUSTED` is returned unchanged as a
one-element list by `splitWithinTokenCutoff`. -/
theorem C4_short_section_unchanged (s : JSString)
    (h : (s.length : ℚ) / 4 < TOKEN_CUTOFF_ADJUSTED) :
    splitWithinTokenCutoff s = [s] := swtc_of_short h

/-- Witness for C4 at the concrete two-character section `sAB`. -/
theorem C4_short_section_unchanged_witness :
    splitWithinTokenCutoff sAB = [sAB] :=
  C4_short_section_unchanged sAB
    (by rw [TOKEN_CUTOFF_ADJUSTED_eq]; norm_num [sAB])

/-- Counterexample to C1: `s0` (16,004 characters, no newline) is one
of the pieces `splitWithinTokenCutoff s0` returns, yet its estimated
token count 4001 is not under the budget `TOKEN_CUTOFF_ADJUSTED = 4000`
(the loop flushes the empty buffer and carries the oversized line into
the next piece without counting it). -/
theorem C1_counterexample :
    s0 ∈ splitWithinTokenCutoff s0
      ∧ ¬ (s0.length : ℚ) / 4 < TOKEN_CUTOFF_ADJUSTED := by
  constructor
  · rw [swtc_s0]
    simp
  · exact s0_not_short

/-- Claim C1 (amended): a returned piece need not be under the budget
as a whole; what holds is that every piece, after dropping its first
line (the line carried over uncounted at a flush, or the empty artifact
of the initial buffer) and ignoring the reintroduced newline
separators, has estimated token count strictly under
`TOKEN_CUTOFF_ADJUSTED`. -/
theorem C1_piece_tail_under_budget (s p : JSString)
    (hp : p ∈ splitWithinTokenCutoff s) :
    linesTokens (splitLines p).tail < TOKEN_CUTOFF_ADJUSTED := by
  by_cases h : (s.length : ℚ) / 4 < TOKEN_CUTOFF_ADJUSTED
  · rw [swtc_of_short h] at hp
    have hps : p = s := by simpa using hp
    subst hps
    calc linesTokens (splitLines p).tail
        ≤ linesTokens (splitLines p) := linesTokens_tail_le _
      _ ≤ (p.length : ℚ) / 4 := linesTokens_splitLines_le p
      _ < TOKEN_CUTOFF_ADJUSTED := h
  · rw [swtc_of_not_short h] at hp
    refine swtcLoop_bounded TOKEN_CUTOFF_ADJUSTED TOKEN_CUTOFF_ADJUSTED_pos
      (splitLines s) 0 [] []
      (fun l hl => no_newline_of_mem_splitLines hl)
      TOKEN_CUTOFF_ADJUSTED_pos ?_
      (fun q hq => absurd hq (List.not_mem_nil q)) p hp
    simp [splitLines, linesTokens]

/-- Witness for (amended) C1 at the concrete section `sAB` and its
returned piece `sAB`. -/
theorem C1_piece_tail_under_budget_witness :
    linesTokens (splitLines sAB).tail < TOKEN_CUTOFF_ADJUSTED :=
  C1_piece_tail_under_budget sAB sAB
    (by rw [swtc_of_length_lt (by norm_num [sAB])]; simp)

/-- Counterexample to C2: for `s0` the concatenated lines of the
returned pieces are `[[], s0]`, not the single line `[s0]` of `s0`: the
loop's first buffer starts empty and is flushed as an empty piece,
adding one synthetic empty line. -/
theorem C2_counterexample :
    piecesLines (splitWithinTokenCutoff s0) ≠ splitLines s0 := by
  rw [swtc_s0, splitLines_no_newline s0_no_newline]
  have e : piecesLines [[], s0] = [[], s0] := by
    simp only [piecesLines]
    rw [splitLines_no_newline s0_no_newline]
    rfl
  rw [e]
  intro h
  injection h with h1 h2
  exact absurd h2 (List.cons_ne_nil s0 [])

/-- Claim C2 (amended): concatenating the lines across the pieces of
`splitWithinTokenCutoff s` yields exactly the lines of `s`, in order,
except that when the line-splitting path is taken (estimated tokens not
under the budget) exactly one extra empty line is prepended — the
artifact of the separator the loop prepends to its initially-empty
buffer.  No original line is dropped, duplicated or reordered. -/
theorem C2_lines_preserved (s : JSString) :
    piecesLines (splitWithinTokenCutoff s)
      = (if (s.length : ℚ) / 4 < TOKEN_CUTOFF_ADJUSTED then [] else [[]])
          ++ splitLines s := by
  by_cases h : (s.length : ℚ) / 4 < TOKEN_CUTOFF_ADJUSTED
  · rw [swtc_of_short h, if_pos h]
    simp [piecesLines]
  · rw [swtc_of_not_short h, if_neg h,
      swtcLoop_flat TOKEN_CUTOFF_ADJUSTED TOKEN_CUTOFF_ADJUSTED_pos
        (splitLines s) 0 [] []
        (fun l hl => no_newline_of_mem_splitLines hl)
        TOKEN_CUTOFF_ADJUSTED_pos
        (fun _ => splitLines_ne_nil s)]
    simp [piecesLines, splitLines]

/-- Claim C10: when the line-splitting path is taken and the first
line's estimated token count alone meets or exceeds the budget, the
first returned piece is the empty string. -/
theorem C10_first_piece_empty (s : JSString)
    (h1 : ¬ (s.length : ℚ) / 4 < TOKEN_CUTOFF_ADJUSTED)
    (h2 : TOKEN_CUTOFF_ADJUSTED ≤ (((splitLines s).headD []).length : ℚ) / 4) :
    (splitWithinTokenCutoff s).head? = some [] := by
  rw [swtc_of_not_short h1]
  cases hs : splitLines s with
  | nil => exact absurd hs (splitLines_ne_nil s)
  | cons l0 rest =>
    rw [hs] at h2
    simp only [List.headD_cons] at h2
    have hcond : ¬ ((0 : ℚ) + (l0.length : ℚ) / 4 < TOKEN_CUTOFF_ADJUSTED) := by
      intro hlt
      linarith
    simp only [swtcLoop, if_neg hcond]
    rw [swtcLoop_out_append]
    simp

/-- Witness for C10: on the 16,004-character single-line section `s0`
the sub-splitter's first returned piece is the empty string. -/
theorem C10_first_piece_empty_witness :
    (splitWithinTokenCutoff s0).head? = some [] :=
  C10_first_piece_empty s0 s0_not_short
    (by
      rw [splitLines_no_newline s0_no_newline]
      simp only [List.headD_cons]
      rw [s0_length, TOKEN_CUTOFF_ADJUSTED_eq]
      norm_num)

theorem concatChildren_append (a b : List Root) :
    concatChildren (a ++ b) = concatChildren a ++ concatChildren b := by
  induction a with
  | nil => simp [concatChildren]
  | cons t ts ih => simp [concatChildren, ih]

theorem splitStep_concat (p : Content → Bool) (acc : List Root) (n : Content) :
    concatChildren (splitStep p acc n) = concatChildren acc ++ [n] := by
  rcases acc.eq_nil_or_concat with h | ⟨as, a, h⟩ <;>
    [skip; rw [List.concat_eq_append] at h] <;> subst h
  · simp [splitStep, concatChildren]
  · rw [splitStep, List.getLast?_concat]
    by_cases hp : p n
    · simp [hp, concatChildren_append, concatChildren]
    · simp [hp, List.dropLast_concat, concatChildren_append, concatChildren]

theorem splitStep_ne_nil (p : Content → Bool) (acc : List Root) (n : Content) :
    splitStep p acc n ≠ [] := by
  rcases acc.eq_nil_or_concat with h | ⟨as, a, h⟩ <;>
    [skip; rw [List.concat_eq_append] at h] <;> subst h
  · simp [splitStep]
  · rw [splitStep, List.getLast?_concat]
    by_cases hp : p n <;> simp [hp]

theorem foldlSplit_concat (p : Content → Bool) :
    ∀ (l : List Content) (acc : List Root),
      concatChildren (List.foldl (splitStep p) acc l)
        = concatChildren acc ++ l := by
  intro l
  induction l with
  | nil => intro acc; simp
  | cons n rest ih =>
    intro acc
    rw [List.foldl_cons, ih, splitStep_concat]
    simp

theorem foldlSplit_length (p : Content → Bool) :
    ∀ (l : List Content) (acc : List Root), acc ≠ [] →
      (List.foldl (splitStep p) acc l).length = acc.length + l.countP p := by
  intro l
  induction l with
  | nil => intro acc _; simp
  | cons n rest ih =>
    intro acc hacc
    rcases acc.eq_nil_or_concat with h | ⟨as, a, h⟩
    · exact absurd h hacc
    · rw [List.concat_eq_append] at h
      subst h
      rw [List.foldl_cons, ih _ (splitStep_ne_nil p _ n)]
      rw [splitStep, List.getLast?_concat]
      by_cases hp : p n
      · simp [hp, List.countP_cons]
        omega
      · simp [hp, List.dropLast_concat, List.countP_cons]

/-- Counterexample to C3: the empty tree has zero headings, yet
`splitTreeBy` returns zero Sections for it, not one (the `reduce` over
an empty `children` returns its initial `[]`), contradicting the claim
that a tree with zero headings yields exactly one Section containing
the whole tree. -/
theorem C3_counterexample :
    emptyTree.children.countP isHeading = 0
      ∧ (splitTreeBy emptyTree isHeading).length ≠ 1 := by
  constructor
  · rfl
  · decide

/-- Claim C3 (amended): for every tree, `splitTreeBy` at the heading
predicate returns `k` Sections when the first top-level node is a
heading (or the tree is empty) and `k + 1` when nonempty content
precedes the first heading, where `k` counts the heading nodes;
concatenating the Sections' node sequences reconstructs the top-level
children in order; and a tree with zero headings and at least one
top-level node yields exactly one Section containing the whole tree
(the empty tree yields zero Sections). -/
theorem C3_section_splitter (t : Root) :
    (splitTreeBy t isHeading).length
        = t.children.countP isHeading
          + (match t.children with
             | [] => 0
             | c :: _ => if isHeading c then 0 else 1)
      ∧ concatChildren (splitTreeBy t isHeading) = t.children
      ∧ (t.children.countP isHeading = 0 → t.children ≠ [] →
          splitTreeBy t isHeading = [Root.mk t.children]) := by
  have hcat : concatChildren (splitTreeBy t isHeading) = t.children := by
    rw [splitTreeBy, foldlSplit_concat]
    simp [concatChildren]
  have hlen : (splitTreeBy t isHeading).length
      = t.children.countP isHeading
        + (match t.children with
           | [] => 0
           | c :: _ => if isHeading c then 0 else 1) := by
    cases hc : t.children with
    | nil => simp [splitTreeBy, hc]
    | cons c rest =>
      have e : splitStep isHeading [] c = [Root.mk [c]] := by
        simp [splitStep]
      rw [splitTreeBy, hc, List.foldl_cons, e,
        foldlSplit_length isHeading rest _ (by simp)]
      by_cases hp : isHeading c
      · simp [hp, List.countP_cons]
        omega
      · simp [hp, List.countP_cons]
        omega
  refine ⟨hlen, hcat, ?_⟩
  intro h0 hne
  cases hc : t.children with
  | nil => exact absurd hc hne
  | cons c rest =>
    have hch : ¬ isHeading c = true := by
      have hall := List.countP_eq_zero.mp (hc ▸ h0)
      exact hall c (List.mem_cons_self c rest)
    have h1 : (splitTreeBy t isHeading).length = 1 := by
      rw [hlen, h0, hc]
      simp [hch]
    rcases List.length_eq_one.mp h1 with ⟨r, hr⟩
    have hrc : r.children = t.children := by
      have h2 := hcat
      rw [hr] at h2
      simpa [concatChildren] using h2
    rw [hr]
    cases r with
    | mk ch =>
      simp only at hrc
      rw [hrc, hc]

/-- Witness for (amended) C3 at the concrete heading-free two-node tree
`t0`: it yields exactly one Section containing the whole tree. -/
theorem C3_section_splitter_witness :
    splitTreeBy t0 isHeading = [Root.mk t0.children] :=
  (C3_section_splitter t0).2.2 (by decide) (by decide)

/-- Claim C8: for a document whose file type is neither `mdoc` nor
`html`, when the MDX parse throws, `processFile` falls back to the
Markdoc path for the same content before the document is declared
unparseable, and the sections produced are exactly those of the
fallback path. -/
theorem C8_mdx_fallback (env : ParserEnv) (file : FileData) (e : ParseErr)
    (h1 : ¬ env.getFileType file.name = r"mdoc")
    (h2 : ¬ env.getFileType file.name = r"html")
    (h3 : splitMarkdownIntoSections env file.content true = .error e) :
    selectSections env file = splitMarkdocIntoSections env file.content := by
  simp [selectSections, h1, h2, h3]

/-- Witness for C8: with `envD` (whose MDX parse throws) the sections
of `cFile` are those of the Markdoc fallback. -/
theorem C8_mdx_fallback_witness :
    selectSections envD cFile = splitMarkdocIntoSections envD cFile.content :=
  C8_mdx_fallback envD cFile (jstr (r"Could not parse import/exports with acorn"))
    (by decide) (by decide) rfl

theorem embedLoop_spec (stores : Stores) (byo : Option JSString)
    (path : JSString) (fileId : Nat) :
    ∀ (sections : List JSString) (st : LoopState),
      List.foldl (embedStep stores byo path fileId) st sections
        = ⟨st.embeddingsTokenCount + (sections.map (chunkTokens stores byo)).sum,
           st.embeddingsData ++ sections.filterMap (chunkRecord stores byo fileId),
           st.errors ++ sections.filterMap (chunkError stores byo path),
           st.trace ++ sections.filterMap chunkEmbedEvent⟩ := by
  intro sections
  induction sections with
  | nil =>
    intro st
    cases st
    simp
  | cons s rest ih =>
    intro st
    rw [List.foldl_cons, ih]
    by_cases hlen : (toInput s).length < MIN_CONTENT_LENGTH
    · simp [embedStep, chunkTokens, chunkRecord, chunkError, chunkEmbedEvent, hlen]
    · cases hb : backOff
          (fun attempt => stores.createEmbedding (toInput s) byo attempt)
          ⟨10000, 10⟩ with
      | ok r =>
        simp [embedStep, chunkTokens, chunkRecord, chunkError, chunkEmbedEvent,
          hlen, hb, List.append_assoc, Nat.add_assoc]
      | error e =>
        simp [embedStep, chunkTokens, chunkRecord, chunkError, chunkEmbedEvent,
          hlen, hb, List.append_assoc]

theorem generateFileEmbeddings_found (stores : Stores) (env : ParserEnv)
    (projectId : Nat) (file : FileData) (byo : Option JSString)
    (fileId : Nat) (fsd : FileSectionData)
    (hpf : processFile env file = .ok fsd)
    (hfid : stores.getFileAtPath projectId file.path = some fileId) :
    generateFileEmbeddings stores env projectId file byo = .ok
      (fsd.sections.filterMap (chunkError stores byo file.path)
         ++ (match stores.insertFileSections
               (fsd.sections.filterMap (chunkRecord stores byo fileId)) with
             | some err => [⟨file.path, storeMsg err⟩]
             | none => []),
       [Event.getFileAtPath projectId file.path,
        Event.deleteFileSections fileId,
        Event.updateFileMeta fileId fsd.meta]
         ++ fsd.sections.filterMap chunkEmbedEvent
         ++ [Event.insertMany
              (fsd.sections.filterMap (chunkRecord stores byo fileId))]
         ++ (match stores.insertFileSections
               (fsd.sections.filterMap (chunkRecord stores byo fileId)) with
             | some _ =>
               (fsd.sections.filterMap (chunkRecord stores byo fileId)).map
                 Event.insertOne
             | none => [])
         ++ [Event.incrby projectId
              (fsd.sections.map (chunkTokens stores byo)).sum]) := by
  simp only [generateFileEmbeddings, hpf, hfid]
  rw [generateFileEmbeddingsCore, embedLoop_spec]
  cases hins : stores.insertFileSections
      (fsd.sections.filterMap (chunkRecord stores byo fileId)) with
  | some err =>
    simp [hins, List.append_assoc]
  | none =>
    simp [hins, List.append_assoc]

theorem bound_cSec : splitWithinTokenCutoff cSec = [cSec] :=
  swtc_of_length_lt (by decide)

theorem bound_aSec : splitWithinTokenCutoff aSec = [aSec] :=
  swtc_of_length_lt (by decide)

theorem bound_bSec : splitWithinTokenCutoff bSec = [bSec] :=
  swtc_of_length_lt (by decide)

theorem selectSections_envA : selectSections envA cFile = .ok [cSec] := by rfl

theorem processFile_envA : processFile envA cFile = .ok ⟨[cSec], []⟩ := by
  simp only [processFile, selectSections_envA, List.foldl_cons, List.foldl_nil,
    bound_cSec]
  rfl

theorem selectSections_envB : selectSections envB cFile = .ok [aSec, bSec] := by rfl

theorem processFile_envB : processFile envB cFile = .ok ⟨[aSec, bSec], []⟩ := by
  simp only [processFile, selectSections_envB, List.foldl_cons, List.foldl_nil,
    bound_aSec, bound_bSec]
  rfl

theorem runA : generateFileEmbeddings storesA envA 1 cFile none
    = .ok ([], [Event.getFileAtPath 1 cPath, Event.deleteFileSections 7,
                Event.updateFileMeta 7 [], Event.embed cSec,
                Event.insertMany [cRec], Event.incrby 1 5]) := by
  rw [generateFileEmbeddings_found storesA envA 1 cFile none 7 ⟨[cSec], []⟩
    processFile_envA rfl]
  rfl

/-- Claim C6: if the file record can neither be found nor created,
`generateFileEmbeddings` returns exactly one error for the file's path,
and its trace consists of the two resolution calls only — no embedding
call, no record insertion, and no usage-counter increment happens. -/
theorem C6_file_resolution_failure (stores : Stores) (env : ParserEnv)
    (projectId : Nat) (file : FileData) (byo : Option JSString)
    (fsd : FileSectionData)
    (hpf : processFile env file = .ok fsd)
    (h1 : stores.getFileAtPath projectId file.path = none)
    (h2 : stores.createFile projectId file.path fsd.meta = none) :
    generateFileEmbeddings stores env projectId file byo
      = .ok ([⟨file.path, unableCreateMsg file.path⟩],
             [Event.getFileAtPath projectId file.path,
              Event.createFile projectId file.path fsd.meta])
    ∧ ∀ ev ∈ [Event.getFileAtPath projectId file.path,
              Event.createFile projectId file.path fsd.meta],
        isEmbedCall ev = false ∧ isRecordInsert ev = false
          ∧ isIncrby ev = false := by
  constructor
  · simp only [generateFileEmbeddings, hpf, h1, h2]
  · intro ev hev
    simp only [List.mem_cons, List.not_mem_nil, or_false] at hev
    rcases hev with h | h <;> subst h <;> exact ⟨rfl, rfl, rfl⟩

/-- Witness for C6: with `storesNoFile` the run returns the single
fatal error and performs only the two resolution calls. -/
theorem C6_file_resolution_failure_witness :
    generateFileEmbeddings storesNoFile envA 1 cFile none
      = .ok ([⟨cPath, unableCreateMsg cPath⟩],
             [Event.getFileAtPath 1 cPath, Event.createFile 1 cPath []]) :=
  (C6_file_resolution_failure storesNoFile envA 1 cFile none ⟨[cSec], []⟩
    processFile_envA rfl rfl).1

/-- Claim C7: after the embedding loop, a single bulk insert of all
records is attempted; if it fails, exactly one error entry describing
the bulk failure is appended and each record is re-inserted one at a
time, in order, best-effort (their results are ignored, nothing is
rolled back); if it succeeds, no per-record insert happens.  Both
branches are visible in the `match` on the bulk-insert result. -/
theorem C7_bulk_insert_fallback (stores : Stores) (env : ParserEnv)
    (projectId : Nat) (file : FileData) (byo : Option JSString)
    (fileId : Nat) (fsd : FileSectionData)
    (hpf : processFile env file = .ok fsd)
    (hfid : stores.getFileAtPath projectId file.path = some fileId) :
    generateFileEmbeddings stores env projectId file byo = .ok
      (fsd.sections.filterMap (chunkError stores byo file.path)
         ++ (match stores.insertFileSections
               (fsd.sections.filterMap (chunkRecord stores byo fileId)) with
             | some err => [⟨file.path, storeMsg err⟩]
             | none => []),
       [Event.getFileAtPath projectId file.path,
        Event.deleteFileSections fileId,
        Event.updateFileMeta fileId fsd.meta]
         ++ fsd.sections.filterMap chunkEmbedEvent
         ++ [Event.insertMany
              (fsd.sections.filterMap (chunkRecord stores byo fileId))]
         ++ (match stores.insertFileSections
               (fsd.sections.filterMap (chunkRecord stores byo fileId)) with
             | some _ =>
               (fsd.sections.filterMap (chunkRecord stores byo fileId)).map
                 Event.insertOne
             | none => [])
         ++ [Event.incrby projectId
              (fsd.sections.map (chunkTokens stores byo)).sum]) :=
  generateFileEmbeddings_found stores env projectId file byo fileId fsd hpf hfid

/-- Witness for C7: with `storesBulkFail` the bulk insert fails, one
`Error storing embeddings` entry is returned and the single record is
re-inserted individually before the usage increment. -/
theorem C7_bulk_insert_fallback_witness :
    generateFileEmbeddings storesBulkFail envA 1 cFile none
      = .ok ([⟨cPath, storeMsg (jstr (r"payload too large"))⟩],
             [Event.getFileAtPath 1 cPath, Event.deleteFileSections 7,
              Event.updateFileMeta 7 [], Event.embed cSec,
              Event.insertMany [cRec], Event.insertOne cRec,
              Event.incrby 1 5]) := by
  rw [C7_bulk_insert_fallback storesBulkFail envA 1 cFile none 7 ⟨[cSec], []⟩
    processFile_envA rfl]
  rfl

/-- Claim C5: when the provider call for one Chunk exhausts its retries
(the `backOff`-wrapped call, 10 attempts, fails), exactly one error
entry is produced for that Chunk (`chunkError` yields exactly one entry
per failing occurrence, and the returned error list is the
concatenation of these per-chunk entries with the bulk-insert part);
the entry's message contains the Chunk's 20-character snippet; and the
records inserted — `filterMap chunkRecord`, visible in the `insertMany`
event — do not depend on the failing Chunk, so other Chunks' records
are still produced. -/
theorem C5_embed_failure_isolated (stores : Stores) (env : ParserEnv)
    (projectId : Nat) (file : FileData) (byo : Option JSString)
    (fileId : Nat) (fsd : FileSectionData) (s : JSString) (e : JSString)
    (hpf : processFile env file = .ok fsd)
    (hfid : stores.getFileAtPath projectId file.path = some fileId)
    (hs : s ∈ fsd.sections)
    (hlen : ¬ (toInput s).length < MIN_CONTENT_LENGTH)
    (hfail : backOff (fun attempt => stores.createEmbedding (toInput s) byo attempt)
        ⟨10000, 10⟩ = .error e) :
    chunkError stores byo file.path s
        = some ⟨file.path, failMsg (toInput s) e⟩
      ∧ List.take 20 (toInput s) <:+: failMsg (toInput s) e
      ∧ ⟨file.path, failMsg (toInput s) e⟩
          ∈ fsd.sections.filterMap (chunkError stores byo file.path)
      ∧ generateFileEmbeddings stores env projectId file byo = .ok
          (fsd.sections.filterMap (chunkError stores byo file.path)
             ++ (match stores.insertFileSections
                   (fsd.sections.filterMap (chunkRecord stores byo fileId)) with
                 | some err => [⟨file.path, storeMsg err⟩]
                 | none => []),
           [Event.getFileAtPath projectId file.path,
            Event.deleteFileSections fileId,
            Event.updateFileMeta fileId fsd.meta]
             ++ fsd.sections.filterMap chunkEmbedEvent
             ++ [Event.insertMany
                  (fsd.sections.filterMap (chunkRecord stores byo fileId))]
             ++ (match stores.insertFileSections
                   (fsd.sections.filterMap (chunkRecord stores byo fileId)) with
                 | some _ =>
                   (fsd.sections.filterMap (chunkRecord stores byo fileId)).map
                     Event.insertOne
                 | none => [])
             ++ [Event.incrby projectId
                  (fsd.sections.map (chunkTokens stores byo)).sum]) := by
  have hce : chunkError stores byo file.path s
      = some ⟨file.path, failMsg (toInput s) e⟩ := by
    simp only [chunkError]
    rw [if_neg hlen, hfail]
  refine ⟨hce, ?_, List.mem_filterMap.mpr ⟨s, hs, hce⟩,
    generateFileEmbeddings_found stores env projectId file byo fileId fsd hpf hfid⟩
  exact ⟨jstr (r"Unable to generate embeddings for section starting with '"),
         jstr (r"...': ") ++ e, by simp [failMsg, List.append_assoc]⟩

/-- Witness for C5: with `storesEmbedFail` (all 10 attempts for the
`a…a` chunk fail) exactly the expected error entry is produced for that
chunk. -/
theorem C5_embed_failure_isolated_witness :
    chunkError storesEmbedFail none cPath aSec
      = some ⟨cPath, failMsg (toInput aSec) (jstr (r"too_many_requests"))⟩ :=
  (C5_embed_failure_isolated storesEmbedFail envB 1 cFile none 7
    ⟨[aSec, bSec], []⟩ aSec (jstr (r"too_many_requests"))
    processFile_envB rfl (List.mem_cons_self aSec [bSec]) (by decide) rfl).1

/-- Counterexample to C9: in the concrete `storesA`/`envA` run the
trace is exactly the listed sequence, and it violates the claimed
ordering — the `deleteFileSections` mutation (index 1) happens before
the embedding call (index 3), because the source deletes the file's
prior section rows and updates its metadata before the embedding loop,
not after it. -/
theorem C9_counterexample :
    generateFileEmbeddings storesA envA 1 cFile none
        = .ok ([], [Event.getFileAtPath 1 cPath, Event.deleteFileSections 7,
                    Event.updateFileMeta 7 [], Event.embed cSec,
                    Event.insertMany [cRec], Event.incrby 1 5])
      ∧ ¬ mutationsOnlyAfterEmbeds
          [Event.getFileAtPath 1 cPath, Event.deleteFileSections 7,
           Event.updateFileMeta 7 [], Event.embed cSec,
           Event.insertMany [cRec], Event.incrby 1 5] := by
  refine ⟨runA, ?_⟩
  intro h
  have := h ⟨1, by decide⟩ ⟨3, by decide⟩ rfl rfl
  simp at this

/-- Claim C9 (amended): the persistence mutations do not all come after
the embedding loop — deletion of the file's prior section rows and the
metadata update happen before the loop, as the leading trace segment
shows.  What holds is: during the embedding loop itself no store state
is mutated (every loop event is a provider call), and record insertion
and the usage-counter increment happen only after the loop (no event of
the post-loop segment is an embedding call; it consists of the bulk
insert, the optional per-record fallback inserts, and the increment). -/
theorem C9_mutation_phases (stores : Stores) (env : ParserEnv)
    (projectId : Nat) (file : FileData) (byo : Option JSString)
    (fileId : Nat) (fsd : FileSectionData)
    (hpf : processFile env file = .ok fsd)
    (hfid : stores.getFileAtPath projectId file.path = some fileId) :
    generateFileEmbeddings stores env projectId file byo = .ok
      (fsd.sections.filterMap (chunkError stores byo file.path)
         ++ (match stores.insertFileSections
               (fsd.sections.filterMap (chunkRecord stores byo fileId)) with
             | some err => [⟨file.path, storeMsg err⟩]
             | none => []),
       [Event.getFileAtPath projectId file.path,
        Event.deleteFileSections fileId,
        Event.updateFileMeta fileId fsd.meta]
         ++ fsd.sections.filterMap chunkEmbedEvent
         ++ [Event.insertMany
              (fsd.sections.filterMap (chunkRecord stores byo fileId))]
         ++ (match stores.insertFileSections
               (fsd.sections.filterMap (chunkRecord stores byo fileId)) with
             | some _ =>
               (fsd.sections.filterMap (chunkRecord stores byo fileId)).map
                 Event.insertOne
             | none => [])
         ++ [Event.incrby projectId
              (fsd.sections.map (chunkTokens stores byo)).sum])
      ∧ (fsd.sections.filterMap chunkEmbedEvent).all isEmbedCall = true
      ∧ ([Event.insertMany
            (fsd.sections.filterMap (chunkRecord stores byo fileId))]
           ++ (match stores.insertFileSections
                 (fsd.sections.filterMap (chunkRecord stores byo fileId)) with
               | some _ =>
                 (fsd.sections.filterMap (chunkRecord stores byo fileId)).map
                   Event.insertOne
               | none => [])
           ++ [Event.incrby projectId
                (fsd.sections.map (chunkTokens stores byo)).sum]).all
          (fun ev => !(isEmbedCall ev)) = true := by
  refine ⟨generateFileEmbeddings_found stores env projectId file byo fileId fsd
    hpf hfid, ?_, ?_⟩
  · rw [List.all_eq_true]
    intro ev hev
    rcases List.mem_filterMap.mp hev with ⟨a, _, ha⟩
    simp only [chunkEmbedEvent] at ha
    by_cases h : (toInput a).length < MIN_CONTENT_LENGTH
    · rw [if_pos h] at ha
      cases ha
    · rw [if_neg h] at ha
      cases ha
      rfl
  · rw [List.all_eq_true]
    intro ev hev
    rcases List.mem_append.mp hev with h | h
    · rcases List.mem_append.mp h with h1 | h1
      · have he : ev = Event.insertMany
            (fsd.sections.filterMap (chunkRecord stores byo fileId)) := by
          simpa using h1
        subst he
        rfl
      · cases hins : stores.insertFileSections
            (fsd.sections.filterMap (chunkRecord stores byo fileId)) with
        | some err =>
          rw [hins] at h1
          simp only [] at h1
          rcases List.mem_map.mp h1 with ⟨r, _, hr⟩
          rw [← hr]
          rfl
        | none =>
          rw [hins] at h1
          simp at h1
    · have he : ev = Event.incrby projectId
          (fsd.sections.map (chunkTokens stores byo)).sum := by
        simpa using h
      subst he
      rfl

/-- Witness for (amended) C9: the happy-path run's full trace in its
three phases. -/
theorem C9_mutation_phases_witness :
    generateFileEmbeddings storesA envA 1 cFile none = .ok
      ([cSec].filterMap (chunkError storesA none cPath)
         ++ (match storesA.insertFileSections
               ([cSec].filterMap (chunkRecord storesA none 7)) with
             | some err => [⟨cPath, storeMsg err⟩]
             | none => []),
       [Event.getFileAtPath 1 cPath,
        Event.deleteFileSections 7,
        Event.updateFileMeta 7 []]
         ++ [cSec].filterMap chunkEmbedEvent
         ++ [Event.insertMany ([cSec].filterMap (chunkRecord storesA none 7))]
         ++ (match storesA.insertFileSections
               ([cSec].filterMap (chunkRecord storesA none 7)) with
             | some _ =>
               ([cSec].filterMap (chunkRecord storesA none 7)).map
                 Event.insertOne
             | none => [])
         ++ [Event.incrby 1 ([cSec].map (chunkTokens storesA none)).sum]) :=
  (C9_mutation_phases storesA envA 1 cFile none 7 ⟨[cSec], []⟩
    processFile_envA rfl).1
